import Mathlib

/-!
Verification of the gn-ftp-magento core against its specification.

The development shallowly embeds the two core components of the repository:

* the time-window-gated scheduler (src/app/scheduler/scheduler.py), in
  particular Scheduler.is_within_time_window and
  Scheduler._handle_post_execution, modelled as a pure step function on an
  explicit scheduler state, driven by a list of tick observations; and
* the rule-based file synchronization engine
  (src/app/services/file_handler.py): _get_remote_destination,
  _process_folder, _archive_processed_files,
  _download_files_from_remote_folder and sync_local_folder_to_sftp,
  modelled as pure functions over directory listings with boolean oracles
  for the outcomes of the external transport operations.

Machine integers do not occur in the modelled code; times of day and
timestamps are modelled as natural numbers on a totally ordered scale
(minutes), and calendar dates as natural numbers.
-/

namespace GnFtpMagento

/-! ## Scheduler state (src/app/scheduler/scheduler.py, Scheduler.__init__)

Python: self.post_job_done : Optional[date], self.window_closed_timestamp :
Optional[datetime].  Dates and timestamps become Nat. -/

structure SchedState where
  postJobDone : Option Nat
  windowClosedTs : Option Nat
deriving DecidableEq, Repr

/-- Observation made by one scheduler tick: the wall clock (now, today) and
the values of the configuration/window predicates the tick evaluates.
now is an absolute timestamp in minutes, today a calendar-date number;
enabled models config SCHEDULE_ENABLED, monthAllowed the result of
is_allowed_month(), inWindow the result of is_within_time_window(), and
postSuccess whether the post_job_function call returns without raising. -/
structure SchedTick where
  now : Nat
  today : Nat
  enabled : Bool
  monthAllowed : Bool
  inWindow : Bool
  postSuccess : Bool
deriving DecidableEq, Repr

/-- Embedding of Scheduler.is_within_time_window (scheduler.py lines 18-28).
Times of day are points on a totally ordered scale (Python time objects
compare lexicographically; Nat stands for that order).  The code returns
start <= now <= end when start <= end, and now >= start or now <= end
otherwise (window spanning midnight). -/
def isWithinTimeWindow (start endT now : Nat) : Bool :=
  if start ≤ endT then
    decide (start ≤ now ∧ now ≤ endT)
  else
    decide (start ≤ now ∨ now ≤ endT)

/-- Embedding of Scheduler._handle_post_execution (scheduler.py lines 59-111)
for the case where a post_job_function is configured (otherwise the method
returns immediately and the state is untouched).  The returned Bool records
whether the post-job callback was invoked on this tick (successfully or
not).  The three datetime.now() calls of one Python invocation are modelled
as the single instant (t.now, t.today).  The elapsed-time comparison
time_since_closure >= timedelta(minutes=delay) becomes delay <= t.now - ts
(natural subtraction; the wall clock is monotone, so t.now >= ts on real
traces). -/
def handlePostExecution (delay : Nat) (t : SchedTick) (s : SchedState) :
    SchedState × Bool :=
  if s.postJobDone = some t.today then
    ({ s with windowClosedTs := none }, false)
  else if t.enabled = false ∨ t.monthAllowed = false then
    (s, false)
  else if t.inWindow = true then
    ({ postJobDone := none, windowClosedTs := none }, false)
  else
    match s.windowClosedTs with
    | none => ({ s with windowClosedTs := some t.now }, false)
    | some ts =>
      if delay ≤ t.now - ts then
        (if t.postSuccess = true then
          ({ s with postJobDone := some t.today }, true)
        else
          ({ s with windowClosedTs := none }, true))
      else
        (s, false)

/-- State reached by running _handle_post_execution over a list of ticks. -/
def runPost (delay : Nat) (s : SchedState) : List SchedTick → SchedState
  | [] => s
  | t :: ts => runPost delay (handlePostExecution delay t s).1 ts

/-- State at scheduler construction: both fields None (scheduler.py
Scheduler.__init__). -/
def initState : SchedState := { postJobDone := none, windowClosedTs := none }

/-- State observed at the boundary just before tick i of the trace. -/
def stateBefore (delay : Nat) (tr : List SchedTick) (i : Nat) : SchedState :=
  runPost delay initState (tr.take i)

/-- Whether the post-job callback is invoked on tick i of the trace. -/
def invokedAt (delay : Nat) (tr : List SchedTick) (i : Nat) : Bool :=
  match tr[i]? with
  | some t => (handlePostExecution delay t (stateBefore delay tr i)).2
  | none => false

/-- Tick i reaches the window check of _handle_post_execution and observes
the window open: the already-done-today guard and the enabled/month guards
fall through and is_within_time_window() is true. -/
def observesOpen (delay : Nat) (tr : List SchedTick) (i : Nat) : Bool :=
  match tr[i]? with
  | some t =>
    decide ((stateBefore delay tr i).postJobDone ≠ some t.today) &&
      t.enabled && t.monthAllowed && t.inWindow
  | none => false

/-- Tick i reaches the window check of _handle_post_execution and observes
the window closed. -/
def observesClosed (delay : Nat) (tr : List SchedTick) (i : Nat) : Bool :=
  match tr[i]? with
  | some t =>
    decide ((stateBefore delay tr i).postJobDone ≠ some t.today) &&
      t.enabled && t.monthAllowed && !t.inWindow
  | none => false

/-! ## Basic trace lemmas -/

theorem runPost_append (delay : Nat) (s : SchedState) (l1 l2 : List SchedTick) :
    runPost delay s (l1 ++ l2) = runPost delay (runPost delay s l1) l2 := by
  induction l1 generalizing s with
  | nil => rfl
  | cons t ts ih => simp [runPost, ih]

theorem stateBefore_succ_of_some (delay : Nat) (tr : List SchedTick) (i : Nat)
    (t : SchedTick) (h : tr[i]? = some t) :
    stateBefore delay tr (i + 1) =
      (handlePostExecution delay t (stateBefore delay tr i)).1 := by
  unfold stateBefore
  rw [List.take_succ, h]
  simp [runPost_append, runPost]

theorem stateBefore_succ_of_none (delay : Nat) (tr : List SchedTick) (i : Nat)
    (h : tr[i]? = none) :
    stateBefore delay tr (i + 1) = stateBefore delay tr i := by
  unfold stateBefore
  rw [List.take_succ, h]
  simp

theorem stateBefore_zero (delay : Nat) (tr : List SchedTick) :
    stateBefore delay tr 0 = initState := rfl

/-- If the state before tick i holds windowClosedTs = some t0, then t0 was
recorded by an earlier tick j that reached the window check of
_handle_post_execution, observed the window closed while no timer was
running, and no tick between j and i reached the window check and observed
the window open. -/
theorem windowClosed_origin (delay : Nat) (tr : List SchedTick) :
    ∀ i t0, (stateBefore delay tr i).windowClosedTs = some t0 →
      ∃ j u, j < i ∧ tr[j]? = some u ∧ u.now = t0 ∧
        observesClosed delay tr j = true ∧
        (stateBefore delay tr j).windowClosedTs = none ∧
        ∀ k, j < k → k < i → observesOpen delay tr k = false := by
  intro i
  induction i with
  | zero =>
    intro t0 h
    simp [stateBefore_zero, initState] at h
  | succ i ih =>
    intro t0 h
    cases htr : tr[i]? with
    | none =>
      rw [stateBefore_succ_of_none delay tr i htr] at h
      obtain ⟨j, u, hj, hu, hnow, hobs, hpre, hbet⟩ := ih t0 h
      refine ⟨j, u, Nat.lt_succ_of_lt hj, hu, hnow, hobs, hpre, fun k hjk hki => ?_⟩
      rcases (by omega : k < i ∨ k = i) with hk | hk
      · exact hbet k hjk hk
      · subst hk
        simp [observesOpen, htr]
    | some t =>
      rw [stateBefore_succ_of_some delay tr i t htr] at h
      by_cases h1 : (stateBefore delay tr i).postJobDone = some t.today
      · simp [handlePostExecution, h1] at h
      · by_cases h2 : t.enabled = false ∨ t.monthAllowed = false
        · have hkeep : (handlePostExecution delay t (stateBefore delay tr i)).1 =
              stateBefore delay tr i := by
            simp [handlePostExecution, h1, h2]
          rw [hkeep] at h
          obtain ⟨j, u, hj, hu, hnow, hobs, hpre, hbet⟩ := ih t0 h
          refine ⟨j, u, Nat.lt_succ_of_lt hj, hu, hnow, hobs, hpre, fun k hjk hki => ?_⟩
          rcases (by omega : k < i ∨ k = i) with hk | hk
          · exact hbet k hjk hk
          · subst hk
            rcases h2 with h2 | h2 <;> simp [observesOpen, htr, h2]
        · push_neg at h2
          have he : t.enabled = true := by
            revert h2; cases t.enabled <;> simp
          have hm : t.monthAllowed = true := by
            have := h2.2; revert this; cases t.monthAllowed <;> simp
          by_cases h3 : t.inWindow = true
          · simp [handlePostExecution, h1, he, hm, h3] at h
          · have hw3 : t.inWindow = false := by
              revert h3; cases t.inWindow <;> simp
            cases hw : (stateBefore delay tr i).windowClosedTs with
            | none =>
              have hres : (handlePostExecution delay t (stateBefore delay tr i)).1 =
                  { stateBefore delay tr i with windowClosedTs := some t.now } := by
                simp [handlePostExecution, h1, he, hm, hw3, hw]
              rw [hres] at h
              simp at h
              refine ⟨i, t, Nat.lt_succ_self i, htr, h, ?_, hw, fun k hik hki => ?_⟩
              · simp [observesClosed, htr, h1, he, hm, hw3]
              · exact absurd rfl (by omega : ¬ (True = True))
            | some ts =>
              have hkeep : (handlePostExecution delay t (stateBefore delay tr i)).1.windowClosedTs =
                  some ts ∨
                  (handlePostExecution delay t (stateBefore delay tr i)).1.windowClosedTs = none := by
                by_cases hd : delay ≤ t.now - ts
                · by_cases hps : t.postSuccess = true
                  · left; simp [handlePostExecution, h1, he, hm, hw3, hw, hd, hps]
                  · right; simp [handlePostExecution, h1, he, hm, hw3, hw, hd, hps]
                · left; simp [handlePostExecution, h1, he, hm, hw3, hw, hd]
              rcases hkeep with hkeep | hkeep
              · rw [hkeep] at h
                have hts : ts = t0 := by simpa using h
                subst hts
                obtain ⟨j, u, hj, hu, hnow, hobs, hpre, hbet⟩ := ih ts hw
                refine ⟨j, u, Nat.lt_succ_of_lt hj, hu, hnow, hobs, hpre,
                  fun k hjk hki => ?_⟩
                rcases (by omega : k < i ∨ k = i) with hk | hk
                · exact hbet k hjk hk
                · subst hk
                  simp [observesOpen, htr, hw3]
              · rw [hkeep] at h
                exact absurd h (by simp)

/-- Case analysis of a tick on which _handle_post_execution invokes the
post-job callback: all guards fell through, a closure timer was running,
the delay had elapsed, and the successor state is determined by whether the
callback succeeded. -/
theorem invoked_cases (delay : Nat) (t : SchedTick) (s : SchedState)
    (h : (handlePostExecution delay t s).2 = true) :
    s.postJobDone ≠ some t.today ∧ t.enabled = true ∧ t.monthAllowed = true ∧
      t.inWindow = false ∧
      ∃ ts, s.windowClosedTs = some ts ∧ delay ≤ t.now - ts ∧
        (handlePostExecution delay t s).1 =
          (if t.postSuccess = true then { s with postJobDone := some t.today }
           else { s with windowClosedTs := none }) := by
  by_cases h1 : s.postJobDone = some t.today
  · simp [handlePostExecution, h1] at h
  · by_cases h2 : t.enabled = false ∨ t.monthAllowed = false
    · simp [handlePostExecution, h1, h2] at h
    · push_neg at h2
      have he : t.enabled = true := by
        have := h2.1; revert this; cases t.enabled <;> simp
      have hm : t.monthAllowed = true := by
        have := h2.2; revert this; cases t.monthAllowed <;> simp
      by_cases h3 : t.inWindow = true
      · simp [handlePostExecution, h1, he, hm, h3] at h
      · have hw3 : t.inWindow = false := by
          revert h3; cases t.inWindow <;> simp
        cases hw : s.windowClosedTs with
        | none => simp [handlePostExecution, h1, he, hm, hw3, hw] at h
        | some ts =>
          by_cases hd : delay ≤ t.now - ts
          · refine ⟨h1, he, hm, hw3, ts, rfl, hd, ?_⟩
            by_cases hps : t.postSuccess = true
            · simp [handlePostExecution, h1, he, hm, hw3, hw, hd, hps]
            · have hps' : t.postSuccess = false := by
                revert hps; cases t.postSuccess <;> simp
              simp [handlePostExecution, h1, he, hm, hw3, hw, hd, hps']
          · simp [handlePostExecution, h1, he, hm, hw3, hw, hd] at h

/-- A tick whose pre-state already records the post-job as done today does
not invoke the callback (first guard of _handle_post_execution). -/
theorem not_invoked_of_done (delay : Nat) (tr : List SchedTick) (k : Nat)
    (u : SchedTick) (htr : tr[k]? = some u)
    (h : (stateBefore delay tr k).postJobDone = some u.today) :
    invokedAt delay tr k = false := by
  simp [invokedAt, htr, handlePostExecution, h]

/-- A recorded completion date originates from a successful invocation of
the post-job callback on an earlier tick with that calendar date. -/
theorem postJobDone_origin (delay : Nat) (tr : List SchedTick) :
    ∀ i d, (stateBefore delay tr i).postJobDone = some d →
      ∃ j u, j < i ∧ tr[j]? = some u ∧ u.today = d ∧
        invokedAt delay tr j = true ∧ u.postSuccess = true := by
  intro i
  induction i with
  | zero =>
    intro d h
    simp [stateBefore_zero, initState] at h
  | succ i ih =>
    intro d h
    cases htr : tr[i]? with
    | none =>
      rw [stateBefore_succ_of_none delay tr i htr] at h
      obtain ⟨j, u, hj, hu, hd, hinv, hps⟩ := ih d h
      exact ⟨j, u, Nat.lt_succ_of_lt hj, hu, hd, hinv, hps⟩
    | some t =>
      rw [stateBefore_succ_of_some delay tr i t htr] at h
      by_cases hfire : (handlePostExecution delay t (stateBefore delay tr i)).2 = true
      · obtain ⟨h1, he, hm, hw3, ts, hw, hdel, hres⟩ :=
          invoked_cases delay t (stateBefore delay tr i) hfire
        by_cases hps : t.postSuccess = true
        · rw [hres, if_pos hps] at h
          simp at h
          exact ⟨i, t, Nat.lt_succ_self i, htr, h, by simp [invokedAt, htr, hfire], hps⟩
        · rw [hres, if_neg hps] at h
          obtain ⟨j, u, hj, hu, hd, hinv, hps'⟩ := ih d h
          exact ⟨j, u, Nat.lt_succ_of_lt hj, hu, hd, hinv, hps'⟩
      · have hkeep : (handlePostExecution delay t (stateBefore delay tr i)).1.postJobDone =
            (stateBefore delay tr i).postJobDone ∨
            (handlePostExecution delay t (stateBefore delay tr i)).1.postJobDone = none := by
          by_cases h1 : (stateBefore delay tr i).postJobDone = some t.today
          · left; simp [handlePostExecution, h1]
          · by_cases h2 : t.enabled = false ∨ t.monthAllowed = false
            · left; simp [handlePostExecution, h1, h2]
            · push_neg at h2
              have he : t.enabled = true := by
                have := h2.1; revert this; cases t.enabled <;> simp
              have hm : t.monthAllowed = true := by
                have := h2.2; revert this; cases t.monthAllowed <;> simp
              by_cases h3 : t.inWindow = true
              · right; simp [handlePostExecution, h1, he, hm, h3]
              · have hw3 : t.inWindow = false := by
                  revert h3; cases t.inWindow <;> simp
                cases hw : (stateBefore delay tr i).windowClosedTs with
                | none => left; simp [handlePostExecution, h1, he, hm, hw3, hw]
                | some ts =>
                  by_cases hd : delay ≤ t.now - ts
                  · exact absurd (by
                      by_cases hps : t.postSuccess = true
                      · simp [handlePostExecution, h1, he, hm, hw3, hw, hd, hps]
                      · have hps' : t.postSuccess = false := by
                          revert hps; cases t.postSuccess <;> simp
                        simp [handlePostExecution, h1, he, hm, hw3, hw, hd, hps']) hfire
                  · left; simp [handlePostExecution, h1, he, hm, hw3, hw, hd]
        rcases hkeep with hkeep | hkeep
        · rw [hkeep] at h
          obtain ⟨j, u, hj, hu, hd, hinv, hps⟩ := ih d h
          exact ⟨j, u, Nat.lt_succ_of_lt hj, hu, hd, hinv, hps⟩
        · rw [hkeep] at h
          exact absurd h (by simp)

/-- The completion date persists across ticks whose calendar date equals
the recorded date (first guard of _handle_post_execution keeps it). -/
theorem postJobDone_persists (delay : Nat) (tr : List SchedTick) (d : Nat)
    (i : Nat) :
    ∀ n, (stateBefore delay tr i).postJobDone = some d →
      (∀ m u, i ≤ m → m < i + n → tr[m]? = some u → u.today = d) →
      (stateBefore delay tr (i + n)).postJobDone = some d := by
  intro n
  induction n with
  | zero => intro h _; exact h
  | succ n ihn =>
    intro h hall
    have hprev : (stateBefore delay tr (i + n)).postJobDone = some d :=
      ihn h (fun m u h1 h2 h3 => hall m u h1 (by omega) h3)
    cases htr : tr[i + n]? with
    | none =>
      have : i + (n + 1) = (i + n) + 1 := by omega
      rw [this, stateBefore_succ_of_none delay tr (i + n) htr]
      exact hprev
    | some u =>
      have hud : u.today = d := hall (i + n) u (by omega) (by omega) htr
      have : i + (n + 1) = (i + n) + 1 := by omega
      rw [this, stateBefore_succ_of_some delay tr (i + n) u htr]
      have hdone : (stateBefore delay tr (i + n)).postJobDone = some u.today := by
        rw [hprev, hud]
      simp [handlePostExecution, hdone, hud]

/-- Pairwise monotone calendar dates, read off at two indices. -/
theorem today_mono (tr : List SchedTick)
    (hmono : tr.Pairwise (fun a b => a.today ≤ b.today))
    (a b : Nat) (ta tb : SchedTick) (hab : a < b)
    (ha : tr[a]? = some ta) (hb : tr[b]? = some tb) : ta.today ≤ tb.today := by
  rw [List.getElem?_eq_some] at ha hb
  obtain ⟨ha1, ha2⟩ := ha
  obtain ⟨hb1, hb2⟩ := hb
  have := List.pairwise_iff_get.mp hmono ⟨a, ha1⟩ ⟨b, hb1⟩ hab
  simpa [List.get_eq_getElem, ha2, hb2] using this

/-- C1 (amended): over every trace of scheduler ticks with nondecreasing
calendar dates, (a) after a SUCCESSFUL post-job invocation no further
invocation — successful or failed — occurs on a tick of the same calendar
date (the original "at most once per calendar date" holds of successful
invocations; a failed invocation may be retried the same date); (b) an
invocation occurs only on a tick whose pre-state carries
windowClosedTs = some t0 with the configured delay elapsed since t0, where
t0 was recorded by an earlier tick that observed the window closed, and no
intermediate tick reached the window check and observed the window open;
(c) a tick that reaches the window check and observes the window open
leaves windowClosedTs cleared, so a subsequent closure restarts the full
wait. -/
theorem post_job_cooldown_policy (delay : Nat) (tr : List SchedTick)
    (hmono : tr.Pairwise (fun a b => a.today ≤ b.today)) :
    (∀ i k ti tk, i < k → tr[i]? = some ti → tr[k]? = some tk →
      invokedAt delay tr i = true → ti.postSuccess = true → tk.today = ti.today →
      invokedAt delay tr k = false)
    ∧ (∀ i, invokedAt delay tr i = true →
        ∃ u t0, tr[i]? = some u ∧
          (stateBefore delay tr i).windowClosedTs = some t0 ∧
          delay ≤ u.now - t0 ∧ observesClosed delay tr i = true ∧
          ∃ j v, j < i ∧ tr[j]? = some v ∧ v.now = t0 ∧
            observesClosed delay tr j = true ∧
            (stateBefore delay tr j).windowClosedTs = none ∧
            ∀ k, j < k → k < i → observesOpen delay tr k = false)
    ∧ (∀ i, observesOpen delay tr i = true →
        (stateBefore delay tr (i + 1)).windowClosedTs = none) := by
  refine ⟨?_, ?_, ?_⟩
  · intro i k ti tk hik hti htk hinv hps htoday
    have hinv' : (handlePostExecution delay ti (stateBefore delay tr i)).2 = true := by
      simpa [invokedAt, hti] using hinv
    obtain ⟨h1, he, hm, hw3, ts, hw, hdel, hres⟩ :=
      invoked_cases delay ti (stateBefore delay tr i) hinv'
    have hsucc : (stateBefore delay tr (i + 1)).postJobDone = some ti.today := by
      rw [stateBefore_succ_of_some delay tr i ti hti, hres, if_pos hps]
    have harith : (i + 1) + (k - (i + 1)) = k := by omega
    have hpersist : (stateBefore delay tr k).postJobDone = some ti.today := by
      rw [← harith]
      refine postJobDone_persists delay tr ti.today (i + 1) (k - (i + 1)) hsucc ?_
      intro m u h1m h2m h3m
      have hmk : m < k := by omega
      have him : i < m := by omega
      have hle1 : ti.today ≤ u.today := today_mono tr hmono i m ti u him hti h3m
      have hle2 : u.today ≤ tk.today := today_mono tr hmono m k u tk hmk h3m htk
      omega
    have : (stateBefore delay tr k).postJobDone = some tk.today := by
      rw [hpersist, htoday]
    exact not_invoked_of_done delay tr k tk htk this
  · intro i hinv
    cases htr : tr[i]? with
    | none => simp [invokedAt, htr] at hinv
    | some u =>
      have hinv' : (handlePostExecution delay u (stateBefore delay tr i)).2 = true := by
        simpa [invokedAt, htr] using hinv
      obtain ⟨h1, he, hm, hw3, ts, hw, hdel, _⟩ :=
        invoked_cases delay u (stateBefore delay tr i) hinv'
      obtain ⟨j, v, hj, hv, hnow, hobsj, hprej, hbet⟩ :=
        windowClosed_origin delay tr i ts hw
      refine ⟨u, ts, rfl, hw, hdel, ?_, j, v, hj, hv, hnow, hobsj, hprej, hbet⟩
      simp [observesClosed, htr, h1, he, hm, hw3]
  · intro i hopen
    cases htr : tr[i]? with
    | none => simp [observesOpen, htr] at hopen
    | some u =>
      have hcomp := hopen
      simp only [observesOpen, htr, Bool.and_eq_true, decide_eq_true_eq] at hcomp
      obtain ⟨⟨⟨h1, he⟩, hm⟩, hwin⟩ := hcomp
      rw [stateBefore_succ_of_some delay tr i u htr]
      simp [handlePostExecution, h1, he, hm, hwin]

/-- Trace refuting the literal once-per-date reading of C1: the window
closes (tick 0), the delay elapses and the post-job is invoked but FAILS
(tick 1), the timer restarts (tick 2), the delay elapses again and the
post-job is invoked a second time on the same calendar date and succeeds
(tick 3); tick 4 then takes the already-done-today guard. -/
def trC1 : List SchedTick :=
  [ { now := 0, today := 0, enabled := true, monthAllowed := true,
      inWindow := false, postSuccess := false },
    { now := 1, today := 0, enabled := true, monthAllowed := true,
      inWindow := false, postSuccess := false },
    { now := 2, today := 0, enabled := true, monthAllowed := true,
      inWindow := false, postSuccess := true },
    { now := 3, today := 0, enabled := true, monthAllowed := true,
      inWindow := false, postSuccess := true },
    { now := 4, today := 0, enabled := true, monthAllowed := true,
      inWindow := false, postSuccess := true } ]

/-- Counterexample to C1 as stated: with delay 1 the post-job callback is
invoked on tick 1 and again on tick 3 of trC1, and both ticks carry the
same calendar date 0, so the callback is invoked twice on one calendar
date (the first invocation fails, the cooldown restarts, and the retry
happens the same date). -/
theorem post_job_twice_same_date :
    invokedAt 1 trC1 1 = true ∧ invokedAt 1 trC1 3 = true ∧
      trC1[1]?.map SchedTick.today = some 0 ∧
      trC1[3]?.map SchedTick.today = some 0 := by decide

/-- Witness for the amended C1 on trC1: tick 3 invokes the post-job
successfully, and tick 4 — same calendar date — does not invoke it. -/
theorem post_job_cooldown_policy_witness :
    trC1.Pairwise (fun a b => a.today ≤ b.today) ∧ (3 : Nat) < 4 ∧
      invokedAt 1 trC1 3 = true ∧ invokedAt 1 trC1 4 = false := by
  refine ⟨by decide, by decide, by decide, ?_⟩
  exact (post_job_cooldown_policy 1 trC1 (by decide)).1 3 4
    { now := 3, today := 0, enabled := true, monthAllowed := true,
      inWindow := false, postSuccess := true }
    { now := 4, today := 0, enabled := true, monthAllowed := true,
      inWindow := false, postSuccess := true }
    (by decide) (by decide) (by decide) (by decide) (by decide) (by decide)

/-- Trace refuting the literal C2 invariant: tick 0 closes the window and
starts the timer, tick 1 invokes the post-job successfully — the success
branch of _handle_post_execution sets post_job_done but does NOT clear
window_closed_timestamp — so at the boundary before tick 2 both fields are
active on the same calendar date. -/
def trC2 : List SchedTick :=
  [ { now := 0, today := 0, enabled := true, monthAllowed := true,
      inWindow := false, postSuccess := true },
    { now := 1, today := 0, enabled := true, monthAllowed := true,
      inWindow := false, postSuccess := true },
    { now := 2, today := 0, enabled := true, monthAllowed := true,
      inWindow := false, postSuccess := true } ]

/-- Counterexample to C2 as stated: at the tick boundary before tick 2 of
trC2 (delay 1), windowClosedTs is non-null while lastPostJobCompletedDate
equals tick 2's calendar date — the success branch does not clear
windowClosedTs; it is only cleared by the next tick's already-done guard. -/
theorem windowClosed_and_done_both_active :
    (stateBefore 1 trC2 2).windowClosedTs = some 0 ∧
      (stateBefore 1 trC2 2).postJobDone = some 0 ∧
      trC2[2]?.map SchedTick.today = some 0 := by decide

/-- C2 (amended): windowClosedTs and a completion date equal to the current
tick's calendar date are simultaneously active only in the single state
produced by a successful post-job tick of that date; a tick observing
lastPostJobCompletedDate = today never invokes the post-job and clears
windowClosedTs, so the post-job cannot re-fire the same day. -/
theorem windowClosed_done_invariant (delay : Nat) (tr : List SchedTick)
    (hmono : tr.Pairwise (fun a b => a.today ≤ b.today)) :
    (∀ i t, tr[i]? = some t →
      (stateBefore delay tr i).postJobDone = some t.today →
      invokedAt delay tr i = false ∧
        (stateBefore delay tr (i + 1)).windowClosedTs = none)
    ∧ (∀ i t, tr[i]? = some t →
        (stateBefore delay tr i).windowClosedTs ≠ none →
        (stateBefore delay tr i).postJobDone = some t.today →
        ∃ k u, i = k + 1 ∧ tr[k]? = some u ∧ invokedAt delay tr k = true ∧
          u.postSuccess = true ∧ u.today = t.today) := by
  constructor
  · intro i t htr hdone
    refine ⟨not_invoked_of_done delay tr i t htr hdone, ?_⟩
    rw [stateBefore_succ_of_some delay tr i t htr]
    simp [handlePostExecution, hdone]
  · intro i t htr hwne hdone
    match i with
    | 0 =>
      exact absurd (by rw [stateBefore_zero]; rfl :
        (stateBefore delay tr 0).windowClosedTs = none) hwne
    | k + 1 =>
      have hklen : k < tr.length := by
        have := (List.getElem?_eq_some.mp htr).1
        omega
      obtain ⟨u, htr2⟩ : ∃ u, tr[k]? = some u :=
        ⟨tr[k], by simp [List.getElem?_eq_some, hklen]⟩
      have hut : u.today ≤ t.today :=
        today_mono tr hmono k (k + 1) u t (by omega) htr2 htr
      have hcontra :
          (stateBefore delay tr k).postJobDone = some t.today →
          t.today ≠ u.today → False := by
        intro hne hneq
        obtain ⟨j, w, hj, hw, hwt, _, _⟩ :=
          postJobDone_origin delay tr k t.today hne
        have h1 : w.today ≤ u.today := today_mono tr hmono j k w u hj hw htr2
        omega
      rw [stateBefore_succ_of_some delay tr k u htr2] at hwne hdone
      by_cases hfire : (handlePostExecution delay u (stateBefore delay tr k)).2 = true
      · obtain ⟨h1, he, hm, hw3, ts, hw, hdel, hres⟩ :=
          invoked_cases delay u (stateBefore delay tr k) hfire
        by_cases hps : u.postSuccess = true
        · rw [hres, if_pos hps] at hdone
          simp at hdone
          exact ⟨k, u, rfl, htr2, by simp [invokedAt, htr2, hfire], hps,
            by omega⟩
        · rw [hres, if_neg hps] at hwne
          simp at hwne
      · exfalso
        by_cases h1 : (stateBefore delay tr k).postJobDone = some u.today
        · rw [show (handlePostExecution delay u (stateBefore delay tr k)).1 =
              { stateBefore delay tr k with windowClosedTs := none } from by
            simp [handlePostExecution, h1]] at hwne
          simp at hwne
        · by_cases h2 : u.enabled = false ∨ u.monthAllowed = false
          · rw [show (handlePostExecution delay u (stateBefore delay tr k)).1 =
                stateBefore delay tr k from by
              simp [handlePostExecution, h1, h2]] at hwne hdone
            exact hcontra hdone (by
              intro hEq
              exact h1 (by rw [hdone, hEq]))
          · push_neg at h2
            have he : u.enabled = true := by
              have := h2.1; revert this; cases u.enabled <;> simp
            have hm : u.monthAllowed = true := by
              have := h2.2; revert this; cases u.monthAllowed <;> simp
            by_cases h3 : u.inWindow = true
            · rw [show (handlePostExecution delay u (stateBefore delay tr k)).1 =
                  { postJobDone := none, windowClosedTs := none } from by
                simp [handlePostExecution, h1, he, hm, h3]] at hwne
              simp at hwne
            · have hw3 : u.inWindow = false := by
                revert h3; cases u.inWindow <;> simp
              cases hw : (stateBefore delay tr k).windowClosedTs with
              | none =>
                rw [show (handlePostExecution delay u (stateBefore delay tr k)).1 =
                    { stateBefore delay tr k with
                        windowClosedTs := some u.now } from by
                  simp [handlePostExecution, h1, he, hm, hw3, hw]] at hdone
                simp only [SchedState.mk.injEq] at hdone
                have hdone' : (stateBefore delay tr k).postJobDone = some t.today := by
                  simpa using hdone
                exact hcontra hdone' (by
                  intro hEq
                  exact h1 (by rw [hdone', hEq]))
              | some ts =>
                by_cases hd : delay ≤ u.now - ts
                · exact hfire (by
                    by_cases hps : u.postSuccess = true
                    · simp [handlePostExecution, h1, he, hm, hw3, hw, hd, hps]
                    · have hps' : u.postSuccess = false := by
                        revert hps; cases u.postSuccess <;> simp
                      simp [handlePostExecution, h1, he, hm, hw3, hw, hd, hps'])
                · rw [show (handlePostExecution delay u (stateBefore delay tr k)).1 =
                      stateBefore delay tr k from by
                    simp [handlePostExecution, h1, he, hm, hw3, hw, hd]] at hdone
                  exact hcontra hdone (by
                    intro hEq
                    exact h1 (by rw [hdone, hEq]))

/-- Final tick of trC2, used to instantiate the amended C2. -/
def tkC2 : SchedTick :=
  { now := 2, today := 0, enabled := true, monthAllowed := true,
    inWindow := false, postSuccess := true }

/-- Witness for the amended C2 on trC2: tick 2 carries the already-done
date, does not invoke the post-job, and its successor state has
windowClosedTs cleared. -/
theorem windowClosed_done_invariant_witness :
    trC2[2]? = some tkC2 ∧
      (stateBefore 1 trC2 2).postJobDone = some 0 ∧
      invokedAt 1 trC2 2 = false ∧
      (stateBefore 1 trC2 3).windowClosedTs = none := by
  refine ⟨by decide, by decide, ?_, ?_⟩
  · exact ((windowClosed_done_invariant 1 trC2 (by decide)).1 2 tkC2
      (by decide) (by decide)).1
  · exact ((windowClosed_done_invariant 1 trC2 (by decide)).1 2 tkC2
      (by decide) (by decide)).2

/-- C8: a failed post-job invocation leaves lastPostJobCompletedDate unset
and clears windowClosedAt (failure branch of _handle_post_execution); any
later tick observing the window closed with no timer running records a
fresh windowClosedAt and does not invoke the callback; and every
invocation requires the full configured delay to have elapsed since the
recorded closure — so a failure is never retried before a fresh closure
plus a full cooldown. -/
theorem post_job_failure_restarts (delay : Nat) (tr : List SchedTick) :
    (∀ i t, tr[i]? = some t → invokedAt delay tr i = true →
      t.postSuccess = false →
      (stateBefore delay tr (i + 1)).windowClosedTs = none ∧
      (stateBefore delay tr (i + 1)).postJobDone =
        (stateBefore delay tr i).postJobDone)
    ∧ (∀ j u, tr[j]? = some u →
        (stateBefore delay tr j).windowClosedTs = none →
        observesClosed delay tr j = true →
        (stateBefore delay tr (j + 1)).windowClosedTs = some u.now ∧
        invokedAt delay tr j = false)
    ∧ (∀ m v t1, tr[m]? = some v →
        (stateBefore delay tr m).windowClosedTs = some t1 →
        invokedAt delay tr m = true → delay ≤ v.now - t1) := by
  refine ⟨?_, ?_, ?_⟩
  · intro i t htr hinv hps
    have hinv' : (handlePostExecution delay t (stateBefore delay tr i)).2 = true := by
      simpa [invokedAt, htr] using hinv
    obtain ⟨h1, he, hm, hw3, ts, hw, hdel, hres⟩ :=
      invoked_cases delay t (stateBefore delay tr i) hinv'
    have hps' : ¬ (t.postSuccess = true) := by simp [hps]
    rw [stateBefore_succ_of_some delay tr i t htr, hres, if_neg hps']
    exact ⟨rfl, rfl⟩
  · intro j u htr hwnone hobs
    have hcomp := hobs
    simp only [observesClosed, htr, Bool.and_eq_true, decide_eq_true_eq] at hcomp
    obtain ⟨⟨⟨h1, he⟩, hm⟩, hwin⟩ := hcomp
    have hw3 : u.inWindow = false := by
      revert hwin; cases u.inWindow <;> simp
    constructor
    · rw [stateBefore_succ_of_some delay tr j u htr]
      simp [handlePostExecution, h1, he, hm, hw3, hwnone]
    · simp [invokedAt, htr, handlePostExecution, h1, he, hm, hw3, hwnone]
  · intro m v t1 htr hw hinv
    have hinv' : (handlePostExecution delay v (stateBefore delay tr m)).2 = true := by
      simpa [invokedAt, htr] using hinv
    obtain ⟨h1, he, hm, hw3, ts, hwts, hdel, _⟩ :=
      invoked_cases delay v (stateBefore delay tr m) hinv'
    have : ts = t1 := by
      rw [hw] at hwts
      simpa using hwts.symm
    omega

/-- Witness for C8 on trC1: the failed invocation at tick 1 clears the
timer and leaves the completion date unset. -/
theorem post_job_failure_restarts_witness :
    invokedAt 1 trC1 1 = true ∧
      (stateBefore 1 trC1 2).windowClosedTs = none ∧
      (stateBefore 1 trC1 2).postJobDone = (stateBefore 1 trC1 1).postJobDone := by
  refine ⟨by decide, ?_⟩
  exact (post_job_failure_restarts 1 trC1).1 1
    { now := 1, today := 0, enabled := true, monthAllowed := true,
      inWindow := false, postSuccess := false }
    (by decide) (by decide) (by decide)

/-- C3: for every windowStart, windowEnd and current time-of-day now, when
windowStart ≤ windowEnd the membership test of is_within_time_window is
the closed interval windowStart ≤ now ≤ windowEnd, and when
windowStart > windowEnd (window spans midnight) it is
now ≥ windowStart ∨ now ≤ windowEnd. -/
theorem is_within_time_window_correct (start endT now : Nat) :
    (start ≤ endT →
      (isWithinTimeWindow start endT now = true ↔ (start ≤ now ∧ now ≤ endT)))
    ∧ (endT < start →
      (isWithinTimeWindow start endT now = true ↔ (now ≥ start ∨ now ≤ endT))) := by
  constructor
  · intro h
    simp [isWithinTimeWindow, h]
  · intro h
    have hn : ¬ (start ≤ endT) := Nat.not_le.mpr h
    simp [isWithinTimeWindow, hn, ge_iff_le]

/-- Witness for C3 at the spec example: start 22:00, end 06:00, now 23:30
(times in minutes of day) lies in the overnight window. -/
theorem is_within_time_window_correct_witness :
    6*60 < 22*60 ∧
      (isWithinTimeWindow (22*60) (6*60) (23*60+30) = true ↔
        ((23*60+30) ≥ 22*60 ∨ (23*60+30) ≤ 6*60)) :=
  ⟨by decide, (is_within_time_window_correct (22*60) (6*60) (23*60+30)).2 (by decide)⟩

/-! ## File routing engine (src/app/services/file_handler.py)

The routing rules of the source are compiled regular expressions of the
single shape PREFIX(\d{2}) with re.IGNORECASE, matched with
Pattern.search; they are modelled by their literal prefix, with the match
semantics (case-insensitive literal, followed by two decimal digits
forming the captured group, found at the leftmost position anywhere in the
filename) made explicit. -/

/-- Case-insensitive match of a literal pattern prefix at the head of a
character list, returning the remaining characters. -/
def matchCaseless : List Char → List Char → Option (List Char)
  | [], s => some s
  | _ :: _, [] => none
  | p :: ps, c :: cs =>
    if p.toLower = c.toLower then matchCaseless ps cs else none

/-- Attempt of a whole rule pattern at the current position: the literal
prefix case-insensitively, then two decimal digits, which form the
captured group. -/
def tryCode (pat s : List Char) : Option (Char × Char) :=
  match matchCaseless pat s with
  | some (d1 :: d2 :: _) =>
    if d1.isDigit && d2.isDigit then some (d1, d2) else none
  | _ => none

/-- Pattern.search of a rule pattern: try the pattern at every position
from the left and return the captured group of the leftmost match. -/
def searchCode (pat : List Char) : List Char → Option (Char × Char)
  | [] => tryCode pat []
  | c :: cs =>
    match tryCode pat (c :: cs) with
    | some r => some r
    | none => searchCode pat cs

/-- Character-exact test of pat at the head of the second list. -/
def headMatches : List Char → List Char → Bool
  | [], _ => true
  | _ :: _, [] => false
  | a :: as, b :: bs => if a = b then headMatches as bs else false

/-- Python substring containment (the test: '\x7bcode\x7d' in dest_template). -/
def containsSub (pat : List Char) : List Char → Bool
  | [] => headMatches pat []
  | c :: cs => headMatches pat (c :: cs) || containsSub pat cs

/-- The template placeholder as characters. -/
def codeToken : List Char := "{code}".data

/-- str.format(code=...) for templates whose only replacement field is the
code placeholder: every occurrence of the placeholder is replaced by the
captured code (the first pattern spells out the characters of codeToken). -/
def replaceCode (code : List Char) : List Char → List Char
  | [] => []
  | '{' :: 'c' :: 'o' :: 'd' :: 'e' :: '}' :: rest => code ++ replaceCode code rest
  | c :: cs => c :: replaceCode code cs

/-- Destination template application (file_handler.py lines 19-24): if the
template contains the code placeholder, substitute the captured code into
it, else return the template verbatim. -/
def applyTemplate (tmpl : String) (c1 c2 : Char) : String :=
  if containsSub codeToken tmpl.data then
    String.mk (replaceCode [c1, c2] tmpl.data)
  else
    tmpl

/-- Embedding of _get_remote_destination (file_handler.py lines 12-25):
rules are an ordered association list of (pattern prefix, destination
template) — the source's dict preserves declaration order; the first
matching pattern wins; None when no rule matches. -/
def getRemoteDestination (filename : String) :
    List (String × String) → Option String
  | [] => none
  | (pat, tmpl) :: rest =>
    match searchCode pat.data filename.data with
    | some (c1, c2) => some (applyTemplate tmpl c1 c2)
    | none => getRemoteDestination filename rest

/-- main_folder_rules of sync_local_folder_to_sftp (file_handler.py lines
154-158), in declaration order. -/
def mainFolderRules : List (String × String) :=
  [("EDIEE", "E{code}"), ("EDISE", "E{code}"), ("PRODE", "E{code}")]

/-- devolucao_folder_rules of sync_local_folder_to_sftp (file_handler.py
line 162). -/
def devolucaoFolderRules : List (String × String) :=
  [("RECE", "E{code}")]

/-- Remote path layout base/<destination>/out/<filename> (file_handler.py
line 82). -/
def remotePathFor (base dest filename : String) : String :=
  base ++ "/" ++ dest ++ "/out/" ++ filename

/-- Upload loop of _process_folder (file_handler.py lines 74-91): files in
enumeration order; a file whose resolved destination is None (or empty —
the Python truthiness test) is skipped; for every other file an upload is
attempted (the pair records local filename and remote path) and on success
the filename joins files_to_archive.  uploadOk is the oracle for
SftpManager.upload_file, which returns a Bool and does not raise. -/
def processFiles (rules : List (String × String)) (base : String)
    (uploadOk : String → Bool) :
    List String → List (String × String) × List String
  | [] => ([], [])
  | f :: fs =>
    let rest := processFiles rules base uploadOk fs
    match getRemoteDestination f rules with
    | none => rest
    | some dest =>
      if dest.isEmpty then rest
      else
        ((f, remotePathFor base dest f) :: rest.1,
         if uploadOk f then f :: rest.2 else rest.2)

/-- A file the upload loop routes and uploads (non-falsy destination). -/
def willUpload (rules : List (String × String)) (f : String) : Bool :=
  match getRemoteDestination f rules with
  | some d => !d.isEmpty
  | none => false

/-- Embedding of _archive_processed_files (file_handler.py lines 28-49):
each successfully uploaded filename is moved from source to archive when
it still exists at archive time, and skipped with a warning otherwise.
existsAt is the oracle for source_path.exists(); the defensive catch of
shutil/OS errors around the move (an environmental fault) is outside the
model.  Returns (moved, warned). -/
def archiveProcessedFiles (existsAt : String → Bool) :
    List String → List String × List String
  | [] => ([], [])
  | f :: fs =>
    let rest := archiveProcessedFiles existsAt fs
    if existsAt f then (f :: rest.1, rest.2) else (rest.1, f :: rest.2)

/-- Embedding of _process_folder (file_handler.py lines 52-94) over the
directory listing: returns (attempted uploads, files moved to the archive,
files warned as missing at archive time). -/
def processFolder (files : List String) (rules : List (String × String))
    (base : String) (uploadOk existsAt : String → Bool) :
    List (String × String) × List String × List String :=
  let pr := processFiles rules base uploadOk files
  let ar := archiveProcessedFiles existsAt pr.2
  (pr.1, ar.1, ar.2)

/-- Embedding of _download_files_from_remote_folder (file_handler.py lines
97-125): every listed file is attempted in order; delete_file is invoked
exactly when download_file reported success; downloadOk is the oracle for
the transport download operation.  Returns (downloaded files, deleted
remote files). -/
def downloadFolder (downloadOk : String → Bool) :
    List String → List String × List String
  | [] => ([], [])
  | f :: fs =>
    let rest := downloadFolder downloadOk fs
    if downloadOk f then (f :: rest.1, f :: rest.2) else (rest.1, rest.2)

/-- Environment of one outbound cycle of sync_local_folder_to_sftp: the
listing of the main sync directory (readDirOk false models the OSError
branch of iterdir), the devolucao subfolder (existence flag and listing),
whether the SftpManager session can be established (its __enter__ raises
on connection failure, the except branch of the source; per-file transport
operations return Bools and do not raise), and the per-file oracles. -/
structure SyncEnv where
  readDirOk : Bool
  syncFiles : List String
  devolucaoDirExists : Bool
  devolucaoFiles : List String
  sessionOk : Bool
  uploadOk : String → Bool
  existsAtArchive : String → Bool

/-- Observable outcome of one outbound cycle: the returned Bool, whether a
transport session was opened, and the effects of the two passes. -/
structure SyncOutcome where
  result : Bool
  sessionOpened : Bool
  mainAttempted : List (String × String)
  mainMoved : List String
  mainWarned : List String
  devoAttempted : List (String × String)
  devoMoved : List String
  devoWarned : List String
deriving Repr

/-- Embedding of sync_local_folder_to_sftp (file_handler.py lines 128-175):
an unreadable or empty main sync directory returns False before any
SftpManager session is opened; otherwise one session is opened and the
main pass then the devolucao pass run sharing it (the devolucao pass is a
no-op when the subfolder does not exist); True is returned iff no
session-level failure occurred. -/
def syncLocalFolderToSftp (base : String) (env : SyncEnv) : SyncOutcome :=
  if env.readDirOk = false then
    ⟨false, false, [], [], [], [], [], []⟩
  else if env.syncFiles.isEmpty then
    ⟨false, false, [], [], [], [], [], []⟩
  else if env.sessionOk = false then
    ⟨false, true, [], [], [], [], [], []⟩
  else
    let m := processFolder env.syncFiles mainFolderRules base
      env.uploadOk env.existsAtArchive
    let dFiles := if env.devolucaoDirExists then env.devolucaoFiles else []
    let d := processFolder dFiles devolucaoFolderRules base
      env.uploadOk env.existsAtArchive
    ⟨true, true, m.1, m.2.1, m.2.2, d.1, d.2.1, d.2.2⟩

/-! ## Lemmas about the routing and transfer loops -/

theorem processFiles_toArchive (rules : List (String × String)) (base : String)
    (uploadOk : String → Bool) (files : List String) :
    (processFiles rules base uploadOk files).2 =
      files.filter (fun f => willUpload rules f && uploadOk f) := by
  induction files with
  | nil => rfl
  | cons f fs ih =>
    simp only [List.filter_cons]
    cases hdest : getRemoteDestination f rules with
    | none =>
      have hw : willUpload rules f = false := by simp [willUpload, hdest]
      simp [processFiles, hdest, hw, ih]
    | some d =>
      by_cases hde : d.isEmpty = true
      · have hw : willUpload rules f = false := by simp [willUpload, hdest, hde]
        simp [processFiles, hdest, hde, hw, ih]
      · have hw : willUpload rules f = true := by
          simp only [willUpload, hdest]
          revert hde; cases d.isEmpty <;> simp
        by_cases hup : uploadOk f = true
        · simp [processFiles, hdest, hde, hw, hup, ih]
        · have hup' : uploadOk f = false := by
            revert hup; cases uploadOk f <;> simp
          simp [processFiles, hdest, hde, hw, hup', ih]

theorem processFiles_attempted_mem (rules : List (String × String))
    (base : String) (uploadOk : String → Bool) :
    ∀ (files : List String) (f dest : String), f ∈ files →
      getRemoteDestination f rules = some dest → dest.isEmpty = false →
      (f, remotePathFor base dest f) ∈ (processFiles rules base uploadOk files).1 := by
  intro files
  induction files with
  | nil =>
    intro f dest h
    simp at h
  | cons g gs ih =>
    intro f dest hmem hdest hde
    rcases List.mem_cons.mp hmem with h | h
    · subst h
      simp [processFiles, hdest, hde]
    · have hrec := ih f dest h hdest hde
      cases hg : getRemoteDestination g rules with
      | none => simpa [processFiles, hg] using hrec
      | some d =>
        by_cases hd : d.isEmpty = true
        · simpa [processFiles, hg, hd] using hrec
        · rw [show (processFiles rules base uploadOk (g :: gs)).1 =
              (g, remotePathFor base d g) :: (processFiles rules base uploadOk gs).1
            from by simp [processFiles, hg, hd]]
          exact List.mem_cons_of_mem _ hrec

theorem processFiles_attempted_willUpload (rules : List (String × String))
    (base : String) (uploadOk : String → Bool) :
    ∀ (files : List String) (p : String × String),
      p ∈ (processFiles rules base uploadOk files).1 →
      willUpload rules p.1 = true := by
  intro files
  induction files with
  | nil =>
    intro p h
    simp [processFiles] at h
  | cons g gs ih =>
    intro p hmem
    cases hg : getRemoteDestination g rules with
    | none =>
      exact ih p (by simpa [processFiles, hg] using hmem)
    | some d =>
      by_cases hd : d.isEmpty = true
      · exact ih p (by simpa [processFiles, hg, hd] using hmem)
      · rw [show (processFiles rules base uploadOk (g :: gs)).1 =
            (g, remotePathFor base d g) :: (processFiles rules base uploadOk gs).1
          from by simp [processFiles, hg, hd]] at hmem
        rcases List.mem_cons.mp hmem with h | h
        · subst h
          simp only [willUpload, hg]
          revert hd; cases d.isEmpty <;> simp
        · exact ih p h

theorem archiveProcessedFiles_spec (existsAt : String → Bool) (l : List String) :
    (archiveProcessedFiles existsAt l).1 = l.filter (fun f => existsAt f) ∧
      (archiveProcessedFiles existsAt l).2 = l.filter (fun f => !existsAt f) := by
  induction l with
  | nil => exact ⟨rfl, rfl⟩
  | cons f fs ih =>
    by_cases h : existsAt f = true
    · simp [archiveProcessedFiles, h, List.filter_cons, ih.1, ih.2]
    · have h' : existsAt f = false := by
        revert h; cases existsAt f <;> simp
      simp [archiveProcessedFiles, h', List.filter_cons, ih.1, ih.2]

theorem downloadFolder_spec (downloadOk : String → Bool) (files : List String) :
    (downloadFolder downloadOk files).1 = files.filter (fun f => downloadOk f) ∧
      (downloadFolder downloadOk files).2 = files.filter (fun f => downloadOk f) := by
  induction files with
  | nil => exact ⟨rfl, rfl⟩
  | cons f fs ih =>
    by_cases h : downloadOk f = true
    · simp [downloadFolder, h, List.filter_cons, ih.1, ih.2]
    · have h' : downloadOk f = false := by
        revert h; cases downloadOk f <;> simp
      simp [downloadFolder, h', List.filter_cons, ih.1, ih.2]

theorem searchCode_none_iff (pat : List Char) :
    ∀ s : List Char, searchCode pat s = none ↔
      ∀ i, tryCode pat (s.drop i) = none := by
  intro s
  induction s with
  | nil =>
    constructor
    · intro h i
      rw [List.drop_nil]
      simpa [searchCode] using h
    · intro h
      have := h 0
      rw [List.drop_nil] at this
      simpa [searchCode] using this
  | cons c cs ih =>
    constructor
    · intro h i
      cases ht : tryCode pat (c :: cs) with
      | some r => simp [searchCode, ht] at h
      | none =>
        have hrest : searchCode pat cs = none := by
          simpa [searchCode, ht] using h
        cases i with
        | zero => simpa using ht
        | succ j => simpa using (ih.mp hrest) j
    · intro h
      have h0 : tryCode pat (c :: cs) = none := by simpa using h 0
      have hrest : ∀ i, tryCode pat (cs.drop i) = none := fun i => by
        simpa using h (i + 1)
      simp [searchCode, h0, ih.mpr hrest]

theorem tryCode_digits (pat s : List Char) (c1 c2 : Char)
    (h : tryCode pat s = some (c1, c2)) :
    c1.isDigit = true ∧ c2.isDigit = true := by
  unfold tryCode at h
  cases hm : matchCaseless pat s with
  | none => rw [hm] at h; simp at h
  | some l =>
    rw [hm] at h
    cases l with
    | nil => simp at h
    | cons d1 l1 =>
      cases l1 with
      | nil => simp at h
      | cons d2 l2 =>
        by_cases hd : (d1.isDigit && d2.isDigit) = true
        · simp [hd] at h
          obtain ⟨h1, h2⟩ := h
          subst h1
          subst h2
          simpa [Bool.and_eq_true] using hd
        · simp [hd] at h

theorem searchCode_digits (pat : List Char) :
    ∀ (s : List Char) (c1 c2 : Char), searchCode pat s = some (c1, c2) →
      c1.isDigit = true ∧ c2.isDigit = true := by
  intro s
  induction s with
  | nil =>
    intro c1 c2 h
    exact tryCode_digits pat [] c1 c2 (by simpa [searchCode] using h)
  | cons c cs ih =>
    intro c1 c2 h
    cases ht : tryCode pat (c :: cs) with
    | some r =>
      have hr : r = (c1, c2) := by simpa [searchCode, ht] using h
      exact tryCode_digits pat (c :: cs) c1 c2 (by rw [ht, hr])
    | none =>
      exact ih c1 c2 (by simpa [searchCode, ht] using h)

theorem replaceCode_codeTemplate (code : List Char) :
    replaceCode code ('E' :: '{' :: 'c' :: 'o' :: 'd' :: 'e' :: '}' :: []) =
      'E' :: code := by
  have h : replaceCode code ('E' :: '{' :: 'c' :: 'o' :: 'd' :: 'e' :: '}' :: []) =
      'E' :: (code ++ replaceCode code []) := rfl
  rw [h]
  simp [replaceCode]

theorem applyTemplate_codeTemplate (c1 c2 : Char) :
    applyTemplate "E{code}" c1 c2 = String.mk ('E' :: c1 :: c2 :: []) := by
  have hc : containsSub codeToken ("E{code}".data) = true := by decide
  simp [applyTemplate, hc, replaceCode_codeTemplate]

theorem getRemoteDestination_first_match (filename : String) :
    ∀ (rules : List (String × String)) (i : Nat) (ri : String × String),
      rules[i]? = some ri →
      (∀ j rj, j < i → rules[j]? = some rj →
        searchCode rj.1.data filename.data = none) →
      ∀ c1 c2, searchCode ri.1.data filename.data = some (c1, c2) →
      getRemoteDestination filename rules = some (applyTemplate ri.2 c1 c2) := by
  intro rules
  induction rules with
  | nil =>
    intro i ri h
    simp at h
  | cons r rest ih =>
    intro i ri hget hprev c1 c2 hsearch
    obtain ⟨p, t⟩ := r
    cases i with
    | zero =>
      have : ri = (p, t) := by simpa using hget.symm
      subst this
      simp only [getRemoteDestination, hsearch]
    | succ i' =>
      have h0 : searchCode p.data filename.data = none :=
        hprev 0 (p, t) (Nat.succ_pos i') (by simp)
      have hrest : rest[i']? = some ri := by simpa using hget
      have hprev' : ∀ j rj, j < i' → rest[j]? = some rj →
          searchCode rj.1.data filename.data = none := by
        intro j rj hj hg
        exact hprev (j + 1) rj (by omega) (by simpa using hg)
      simp only [getRemoteDestination, h0]
      exact ih i' ri hrest hprev' c1 c2 hsearch

theorem getRemoteDestination_none_iff (filename : String) :
    ∀ rules : List (String × String),
      getRemoteDestination filename rules = none ↔
        ∀ r ∈ rules, searchCode r.1.data filename.data = none := by
  intro rules
  induction rules with
  | nil => simp [getRemoteDestination]
  | cons r rest ih =>
    obtain ⟨p, t⟩ := r
    cases hs : searchCode p.data filename.data with
    | some c =>
      obtain ⟨c1, c2⟩ := c
      constructor
      · intro h
        simp [getRemoteDestination, hs] at h
      · intro h
        exact absurd (h (p, t) (List.mem_cons_self _ _)) (by simp [hs])
    | none =>
      constructor
      · intro h r hr
        rcases List.mem_cons.mp hr with h1 | h1
        · subst h1
          exact hs
        · exact (ih.mp (by simpa [getRemoteDestination, hs] using h)) r h1
      · intro h
        simp only [getRemoteDestination, hs]
        exact ih.mpr (fun r hr => h r (List.mem_cons_of_mem _ hr))

/-- C4: destination resolution tests the rules in declaration order and the
first matching pattern determines the result — the captured two-digit code
is substituted into the template when it contains the code placeholder,
otherwise the template is returned verbatim; a filename matching no rule
resolves to none and is skipped by the upload loop (not uploaded, not
archived); with the configured rules, EDIEE07_x.csv resolves to E07 and
NOMATCH.txt resolves to none. -/
theorem destination_resolution_first_match_wins :
    (∀ (filename : String) (rules : List (String × String)) (i : Nat)
       (ri : String × String),
      rules[i]? = some ri →
      (∀ j rj, j < i → rules[j]? = some rj →
        searchCode rj.1.data filename.data = none) →
      ∀ c1 c2, searchCode ri.1.data filename.data = some (c1, c2) →
      getRemoteDestination filename rules = some (applyTemplate ri.2 c1 c2))
    ∧ (∀ (filename : String) (rules : List (String × String)),
        getRemoteDestination filename rules = none ↔
          ∀ r ∈ rules, searchCode r.1.data filename.data = none)
    ∧ (∀ c1 c2 : Char,
        applyTemplate "E{code}" c1 c2 = String.mk ('E' :: c1 :: c2 :: []))
    ∧ (∀ (tmpl : String) (c1 c2 : Char), containsSub codeToken tmpl.data = false →
        applyTemplate tmpl c1 c2 = tmpl)
    ∧ getRemoteDestination "EDIEE07_x.csv" mainFolderRules = some "E07"
    ∧ getRemoteDestination "NOMATCH.txt" mainFolderRules = none
    ∧ (∀ (files : List String) (base : String) (uploadOk : String → Bool)
        (f : String), f ∈ files →
        getRemoteDestination f mainFolderRules = none →
        f ∉ (processFiles mainFolderRules base uploadOk files).2 ∧
        ∀ p, (f, p) ∉ (processFiles mainFolderRules base uploadOk files).1) := by
  refine ⟨fun filename => getRemoteDestination_first_match filename,
    fun filename => getRemoteDestination_none_iff filename,
    applyTemplate_codeTemplate, ?_, by decide, by decide, ?_⟩
  · intro tmpl c1 c2 h
    simp [applyTemplate, h]
  · intro files base uploadOk f hmem hdest
    have hw : willUpload mainFolderRules f = false := by
      simp [willUpload, hdest]
    constructor
    · rw [processFiles_toArchive]
      simp [List.mem_filter, hw]
    · intro p hp
      have hwu := processFiles_attempted_willUpload mainFolderRules base uploadOk
        files (f, p) hp
      rw [hw] at hwu
      exact absurd hwu (by simp)

/-- Witness for C4: EDISE02.txt fails the first rule (EDIEE) and matches
the second (EDISE), so the second rule determines the destination. -/
theorem destination_resolution_first_match_wins_witness :
    mainFolderRules[1]? = some ("EDISE", "E{code}") ∧
      searchCode "EDISE".data "EDISE02.txt".data = some ('0', '2') ∧
      getRemoteDestination "EDISE02.txt" mainFolderRules =
        some (applyTemplate "E{code}" '0' '2') := by
  refine ⟨by decide, by decide, ?_⟩
  refine destination_resolution_first_match_wins.1 "EDISE02.txt" mainFolderRules 1
    ("EDISE", "E{code}") (by decide) ?_ '0' '2' (by decide)
  intro j rj hj hg
  interval_cases j
  simp only [mainFolderRules, List.getElem?_cons_zero, Option.some.injEq] at hg
  rw [← hg]
  decide

/-- C10: rule-pattern matching is case-insensitive and unanchored: whenever
the pattern (prefix, case-insensitively, followed by two decimal digits)
occurs at any position of the filename, the rule matches and the captured
two-digit code of the leftmost occurrence is substituted into the
destination template; in particular xEdIeE07.txt matches the EDIEE rule of
the configured set and routes to E07. -/
theorem routing_caseless_unanchored :
    (∀ pat filename : String,
      (∃ i, (tryCode pat.data (filename.data.drop i)).isSome = true) →
      ∃ c1 c2, searchCode pat.data filename.data = some (c1, c2) ∧
        c1.isDigit = true ∧ c2.isDigit = true ∧
        getRemoteDestination filename [(pat, "E{code}")] =
          some (String.mk ('E' :: c1 :: c2 :: [])))
    ∧ getRemoteDestination "xEdIeE07.txt" mainFolderRules = some "E07" := by
  constructor
  · intro pat filename hex
    cases hs : searchCode pat.data filename.data with
    | none =>
      obtain ⟨i, hi⟩ := hex
      rw [(searchCode_none_iff pat.data filename.data).mp hs i] at hi
      simp at hi
    | some r =>
      obtain ⟨c1, c2⟩ := r
      obtain ⟨h1, h2⟩ := searchCode_digits pat.data filename.data c1 c2 hs
      refine ⟨c1, c2, rfl, h1, h2, ?_⟩
      simp [getRemoteDestination, hs, applyTemplate_codeTemplate]
  · decide

/-- Witness for C10: the EDIEE pattern occurs in xEdIeE07.txt in mixed case
at position 1, and the rule routes the file to E07. -/
theorem routing_caseless_unanchored_witness :
    (∃ i, (tryCode "EDIEE".data ("xEdIeE07.txt".data.drop i)).isSome = true) ∧
      (∃ c1 c2, searchCode "EDIEE".data "xEdIeE07.txt".data = some (c1, c2) ∧
        c1.isDigit = true ∧ c2.isDigit = true ∧
        getRemoteDestination "xEdIeE07.txt" [("EDIEE", "E{code}")] =
          some (String.mk ('E' :: c1 :: c2 :: []))) :=
  ⟨⟨1, by decide⟩,
    routing_caseless_unanchored.1 "EDIEE" "xEdIeE07.txt" ⟨1, by decide⟩⟩

/-- C5: in the inbound pass, the remote delete operation is invoked exactly
for the files whose download reported success; a file whose download fails
is not deleted, and processing continues with the remaining files (every
listed file with a successful download is deleted regardless of earlier
failures). -/
theorem download_deletes_only_on_success (files : List String)
    (downloadOk : String → Bool) :
    (downloadFolder downloadOk files).2 = files.filter (fun f => downloadOk f)
    ∧ (downloadFolder downloadOk files).1 = files.filter (fun f => downloadOk f)
    ∧ (∀ f, f ∈ files → downloadOk f = false →
        f ∉ (downloadFolder downloadOk files).2)
    ∧ (∀ f, f ∈ files → downloadOk f = true →
        f ∈ (downloadFolder downloadOk files).2) := by
  obtain ⟨h1, h2⟩ := downloadFolder_spec downloadOk files
  refine ⟨h2, h1, ?_, ?_⟩
  · intro f hf hok
    rw [h2]
    simp [List.mem_filter, hok]
  · intro f hf hok
    rw [h2]
    simp [List.mem_filter, hok, hf]

/-- Download-success oracle used by the C5 witness: only a.csv downloads. -/
def dlOkA : String → Bool := fun f => f == "a.csv"

/-- Witness for C5: with only a.csv downloading successfully, b.csv is not
deleted from the remote folder. -/
theorem download_deletes_only_on_success_witness :
    ("b.csv" ∈ ["a.csv", "b.csv"] ∧ dlOkA "b.csv" = false) ∧
      "b.csv" ∉ (downloadFolder dlOkA ["a.csv", "b.csv"]).2 :=
  ⟨⟨by decide, by decide⟩,
    (download_deletes_only_on_success ["a.csv", "b.csv"] dlOkA).2.2.1 "b.csv"
      (by decide) (by decide)⟩

/-- C6: in the outbound pass, exactly the routed files whose upload
reported success and that still exist at archive time are moved to the
archive; a routed-and-uploaded file missing at archive time is recorded as
a warning instead; every routed file is attempted regardless of other
files' failures (a per-file failure does not abort the pass); and a file
whose upload failed is neither scheduled for archival nor moved. -/
theorem process_folder_archive_exact (files : List String)
    (rules : List (String × String)) (base : String)
    (uploadOk existsAt : String → Bool) :
    (processFolder files rules base uploadOk existsAt).2.1 =
      files.filter (fun f => (willUpload rules f && uploadOk f) && existsAt f)
    ∧ (processFolder files rules base uploadOk existsAt).2.2 =
      files.filter (fun f => (willUpload rules f && uploadOk f) && !existsAt f)
    ∧ (∀ f dest, f ∈ files → getRemoteDestination f rules = some dest →
        dest.isEmpty = false →
        (f, remotePathFor base dest f) ∈
          (processFolder files rules base uploadOk existsAt).1)
    ∧ (∀ f, f ∈ files → uploadOk f = false →
        f ∉ (processFiles rules base uploadOk files).2 ∧
        f ∉ (processFolder files rules base uploadOk existsAt).2.1) := by
  obtain ⟨ha1, ha2⟩ :=
    archiveProcessedFiles_spec existsAt (processFiles rules base uploadOk files).2
  have hmoved : (processFolder files rules base uploadOk existsAt).2.1 =
      files.filter (fun f => (willUpload rules f && uploadOk f) && existsAt f) := by
    show (archiveProcessedFiles existsAt (processFiles rules base uploadOk files).2).1 = _
    rw [ha1, processFiles_toArchive, List.filter_filter]
    exact List.filter_congr (fun a _ => by
      cases existsAt a <;> cases willUpload rules a <;> cases uploadOk a <;> rfl)
  refine ⟨hmoved, ?_, ?_, ?_⟩
  · show (archiveProcessedFiles existsAt (processFiles rules base uploadOk files).2).2 = _
    rw [ha2, processFiles_toArchive, List.filter_filter]
    exact List.filter_congr (fun a _ => by
      cases existsAt a <;> cases willUpload rules a <;> cases uploadOk a <;> rfl)
  · intro f dest hmem hdest hde
    exact processFiles_attempted_mem rules base uploadOk files f dest hmem hdest hde
  · intro f hmem hup
    constructor
    · rw [processFiles_toArchive]
      simp [List.mem_filter, hup]
    · rw [hmoved]
      simp [List.mem_filter, hup]

/-- Oracle answering true for every file, used by witnesses. -/
def allTrue : String → Bool := fun _ => true

/-- Witness for C6: a routed file is attempted with the layout
base/dest/out/filename. -/
theorem process_folder_archive_exact_witness :
    ("EDIEE07_a.csv" ∈ ["EDIEE07_a.csv"] ∧
      getRemoteDestination "EDIEE07_a.csv" mainFolderRules = some "E07" ∧
      ("E07" : String).isEmpty = false) ∧
      ("EDIEE07_a.csv", remotePathFor "B" "E07" "EDIEE07_a.csv") ∈
        (processFolder ["EDIEE07_a.csv"] mainFolderRules "B" allTrue allTrue).1 :=
  ⟨⟨by decide, by decide, by decide⟩,
    (process_folder_archive_exact ["EDIEE07_a.csv"] mainFolderRules "B"
      allTrue allTrue).2.2.1 "EDIEE07_a.csv" "E07" (by decide) (by decide)
      (by decide)⟩

/-- C7: an outbound cycle over an unreadable or empty sync directory
returns false without opening a transport session; otherwise one session
is opened, the main pass and then the devolucao pass run over it, and the
cycle returns true iff the session could be established — per-file upload
results never change the returned value. -/
theorem sync_cycle_gate_and_result (base : String) (env : SyncEnv) :
    (env.readDirOk = true → env.syncFiles = [] →
      (syncLocalFolderToSftp base env).result = false ∧
      (syncLocalFolderToSftp base env).sessionOpened = false)
    ∧ (env.readDirOk = false →
      (syncLocalFolderToSftp base env).result = false ∧
      (syncLocalFolderToSftp base env).sessionOpened = false)
    ∧ (env.readDirOk = true → env.syncFiles ≠ [] →
      (syncLocalFolderToSftp base env).sessionOpened = true ∧
      ((syncLocalFolderToSftp base env).result = true ↔ env.sessionOk = true) ∧
      (env.sessionOk = true →
        (syncLocalFolderToSftp base env).mainAttempted =
          (processFiles mainFolderRules base env.uploadOk env.syncFiles).1 ∧
        (syncLocalFolderToSftp base env).devoAttempted =
          (processFiles devolucaoFolderRules base env.uploadOk
            (if env.devolucaoDirExists then env.devolucaoFiles else [])).1))
    ∧ (∀ up : String → Bool,
        (syncLocalFolderToSftp base { env with uploadOk := up }).result =
          (syncLocalFolderToSftp base env).result) := by
  refine ⟨?_, ?_, ?_, ?_⟩
  · intro h1 h2
    simp [syncLocalFolderToSftp, h1, h2]
  · intro h1
    simp [syncLocalFolderToSftp, h1]
  · intro h1 h2
    have hne : env.syncFiles.isEmpty = false := by
      rw [List.isEmpty_eq_false]
      exact h2
    cases hs : env.sessionOk with
    | false =>
      simp [syncLocalFolderToSftp, h1, hne, hs, processFolder]
    | true =>
      simp [syncLocalFolderToSftp, h1, hne, hs, processFolder]
  · intro up
    cases hrd : env.readDirOk with
    | false => simp [syncLocalFolderToSftp, hrd]
    | true =>
      cases hie : env.syncFiles.isEmpty with
      | true => simp [syncLocalFolderToSftp, hrd, hie]
      | false =>
        cases hs : env.sessionOk with
        | false => simp [syncLocalFolderToSftp, hrd, hie, hs]
        | true => simp [syncLocalFolderToSftp, hrd, hie, hs]

/-- Environment with an empty main sync directory but a populated
devolucao subfolder, used by the C7 and C9 witnesses. -/
def envC9 : SyncEnv :=
  { readDirOk := true, syncFiles := [], devolucaoDirExists := true,
    devolucaoFiles := ["RECE05_x.csv"], sessionOk := true,
    uploadOk := allTrue, existsAtArchive := allTrue }

/-- Witness for C7: an empty sync directory yields result false with no
session opened. -/
theorem sync_cycle_gate_and_result_witness :
    envC9.readDirOk = true ∧ envC9.syncFiles = [] ∧
      (syncLocalFolderToSftp "B" envC9).result = false ∧
      (syncLocalFolderToSftp "B" envC9).sessionOpened = false := by
  refine ⟨rfl, rfl, ?_⟩
  exact (sync_cycle_gate_and_result "B" envC9).1 rfl rfl

/-- C9: the nothing-to-do gate of the outbound cycle counts only regular
files directly in the main sync directory: when that listing is empty the
cycle returns false without opening a transport session and attempts no
devolucao upload, even though a file such as RECE05_x.csv present in the
devolucao subfolder matches the devolucao rules. -/
theorem empty_main_dir_skips_devolucao (base : String) (env : SyncEnv)
    (h1 : env.readDirOk = true) (h2 : env.syncFiles = []) :
    (syncLocalFolderToSftp base env).result = false ∧
    (syncLocalFolderToSftp base env).sessionOpened = false ∧
    (syncLocalFolderToSftp base env).devoAttempted = [] ∧
    getRemoteDestination "RECE05_x.csv" devolucaoFolderRules = some "E05" := by
  refine ⟨?_, ?_, ?_, by decide⟩ <;> simp [syncLocalFolderToSftp, h1, h2]

/-- Witness for C9: envC9 has a matching file in the devolucao subfolder
yet an empty main directory, and no devolucao upload is attempted. -/
theorem empty_main_dir_skips_devolucao_witness :
    envC9.readDirOk = true ∧ envC9.syncFiles = [] ∧
      envC9.devolucaoFiles = ["RECE05_x.csv"] ∧
      (syncLocalFolderToSftp "B" envC9).devoAttempted = [] := by
  refine ⟨rfl, rfl, rfl, ?_⟩
  exact (empty_main_dir_skips_devolucao "B" envC9 rfl rfl).2.2.1

end GnFtpMagento
